import Mathlib

/-!
# ngxnet: script execution, script registry, task counters and the Redis manager

A shallow embedding of `src/db_redis.go` and `src/func_go.go`.

* Go strings are Lean `String`s, Go `int`/`int64` values are `Int`s, the `int32`
  counters wrap explicitly through `wrapInt32`.
* Go maps are association lists with `GoMap.get` (the comma-ok lookup) and
  `GoMap.set` (assignment `m[k] = v`).
* The Redis server behind one `*Redis` connection is a `Store`: an oracle that
  answers each `EVALSHA` / `SCRIPT LOAD` as a function of every call issued so far,
  so that all behaviours of the store (any mix of successes and failures) are covered.
  The calls that a function issues are recorded in a trace.
* Logging (`LogError`, `LogInfo`, `LogDebug`) does not influence control flow and is
  left out.
-/

namespace Ngxnet

/-! ## Definitions -/

/-- Go map as an association list; every key occurs at most once when built with `set`. -/
abbrev GoMap (κ ν : Type) := List (κ × ν)

/-- The comma-ok lookup `v, ok := m[k]`. -/
def GoMap.get {κ ν : Type} [DecidableEq κ] : GoMap κ ν → κ → Option ν
  | [], _ => none
  | (k', v) :: m, k => if k' = k then some v else get m k

/-- The assignment `m[k] = v`: overwrite the entry when present, add one otherwise. -/
def GoMap.set {κ ν : Type} [DecidableEq κ] : GoMap κ ν → κ → ν → GoMap κ ν
  | [], k, v => [(k, v)]
  | (k', v') :: m, k, v => if k' = k then (k, v) :: m else (k', v') :: set m k v

/-- Go `interface{}` value as it comes back from `Cmd.Result()`. -/
inductive Value where
  | nil
  | int64 (n : Int)
  | string (s : String)
  | other (tag : Nat)
  deriving DecidableEq

/-- The `error` values that the script functions hand to their callers. `table c` is an
entry of the code table behind `GetError`. -/
inductive Error where
  | ErrDBErr
  | ErrDBDataType
  | table (c : Nat)
  deriving DecidableEq

/-- One request sent to the store over a connection. -/
inductive Call where
  | EvalSha (hash : String) (keys : List String) (args : List Value)
  | ScriptLoad (script : String)
  deriving DecidableEq

/-- The server behind a `*Redis` connection. Each answer may depend on all calls issued
before it; `Except.error msg` is a Go error whose `Error()` text is `msg`. -/
structure Store where
  EvalSha : List Call → String → List String → List Value → Except String Value
  ScriptLoad : List Call → String → Except String String

/-- The package-level script tables of `db_redis.go`. -/
structure Scripts where
  scriptMap : GoMap Int String
  scriptCommitMap : GoMap Int String
  scriptHashMap : GoMap Int String
  scriptIndex : Int

/-- The initial value of the package-level variables. -/
def Scripts.init : Scripts :=
  { scriptMap := [], scriptCommitMap := [], scriptHashMap := [], scriptIndex := 0 }

/-- Go `strings.HasPrefix`: `len(s) >= len(prefix) && s[0:len(prefix)] == prefix`. -/
def HasPrefix (s pre : String) : Bool :=
  decide (s.length ≥ pre.length) && (s.toList.take pre.length == pre.toList)

/-- Outcome of one `Redis.Script` invocation: the returned pair, the script tables
afterwards and the trace of store calls extended by the calls of this invocation. -/
structure ScriptOut where
  re : Value
  err : Option Error
  scripts : Scripts
  trace : List Call

/-- The method `Redis.Script` (db_redis.go, lines 57-85). -/
def Script (st : Store) (g : Scripts) (trace : List Call) (cmd : Int)
    (keys : List String) (args : List Value) : ScriptOut :=
  let hash := (g.scriptHashMap.get cmd).getD ""
  let t1 := trace ++ [Call.EvalSha hash keys args]
  match st.EvalSha trace hash keys args with
  | .ok re => { re := re, err := none, scripts := g, trace := t1 }
  | .error err =>
    match g.scriptMap.get cmd with
    | none => { re := .nil, err := some .ErrDBErr, scripts := g, trace := t1 }
    | some script =>
      if HasPrefix err "NOSCRIPT " then
        let t2 := t1 ++ [Call.ScriptLoad script]
        match st.ScriptLoad t1 script with
        | .error _ => { re := .nil, err := some .ErrDBErr, scripts := g, trace := t2 }
        | .ok hash2 =>
          let g2 := { g with scriptHashMap := g.scriptHashMap.set cmd hash2 }
          let t3 := t2 ++ [Call.EvalSha hash2 keys args]
          match st.EvalSha t2 hash2 keys args with
          | .ok re => { re := re, err := none, scripts := g2, trace := t3 }
          | .error _ => { re := .nil, err := some .ErrDBErr, scripts := g2, trace := t3 }
      else
        { re := .nil, err := some .ErrDBErr, scripts := g, trace := t1 }

/-- Go conversion `uint16(x)` of an `int64`: the low 16 bits. -/
def toUint16 (x : Int) : Nat := (x % 65536).toNat

/-- The method `Redis.ScriptStr` (db_redis.go, lines 25-42). `GetError` is the code table, which is
declared outside the files at hand and therefore a parameter; `none` is a nil error. -/
def ScriptStr (GetError : Nat → Option Error) (st : Store) (g : Scripts) (trace : List Call)
    (cmd : Int) (keys : List String) (args : List Value) : String × Option Error :=
  let out := Script st g trace cmd keys args
  match out.err with
  | some _ => ("", some .ErrDBErr)
  | none =>
    match out.re with
    | .int64 errcode => ("", GetError (toUint16 errcode))
    | .string str => (str, none)
    | _ => ("", some .ErrDBDataType)

/-- The method `Redis.ScriptInt64` (db_redis.go, lines 44-55). -/
def ScriptInt64 (st : Store) (g : Scripts) (trace : List Call)
    (cmd : Int) (keys : List String) (args : List Value) : Int × Option Error :=
  let out := Script st g trace cmd keys args
  match out.err with
  | some _ => (0, some .ErrDBErr)
  | none =>
    match out.re with
    | .int64 code => (code, none)
    | _ => (0, some .ErrDBDataType)

/-- Number of `EVALSHA` requests in a trace. -/
def countEvalSha (t : List Call) : Nat :=
  (t.filter (fun c => match c with | .EvalSha _ _ _ => true | _ => false)).length

/-- Number of `SCRIPT LOAD` requests in a trace. -/
def countScriptLoad (t : List Call) : Nat :=
  (t.filter (fun c => match c with | .ScriptLoad _ => true | _ => false)).length

/-- A store that refuses every request with the given message. -/
def failingStore (msg : String) : Store :=
  { EvalSha := fun _ _ _ _ => .error msg, ScriptLoad := fun _ _ => .error msg }

/-- A store that knows no script at first: `EVALSHA` answers `NOSCRIPT` until a
`SCRIPT LOAD` has been issued, then it answers `v`; `SCRIPT LOAD` returns hash `h`. -/
def freshStore (h : String) (v : Value) : Store :=
  { EvalSha := fun t _ _ _ =>
      if countScriptLoad t = 0 then .error "NOSCRIPT No matching script." else .ok v
    ScriptLoad := fun _ _ => .ok h }

/-- A store that answers every `EVALSHA` with `v`. -/
def constStore (v : Value) : Store :=
  { EvalSha := fun _ _ _ _ => .ok v, ScriptLoad := fun _ _ => .ok "h" }

/-- A script table with one registered script (id 1) and no cached hash. -/
def oneScript : Scripts :=
  { scriptMap := [(1, "return 1")], scriptCommitMap := [(1, "v1")], scriptHashMap := [],
    scriptIndex := 1 }

/-- A sample code table: code `c` stands for the domain error `table c`, so that code 7
can play the part of "NotFound". -/
def sampleTable : Nat → Option Error := fun c => some (.table c)

/-- Two's-complement wrap of an integer into the `int32` range. -/
def wrapInt32 (x : Int) : Int := (x + 2147483648) % 4294967296 - 2147483648

/-- The function `NewRedisScript` (db_redis.go, lines 188-193): `atomic.AddInt32(&scriptIndex, 1)`
converted to `int`, then the two table assignments. -/
def NewRedisScript (g : Scripts) (commit str : String) : Int × Scripts :=
  let cmd := wrapInt32 (g.scriptIndex + 1)
  (cmd, { scriptIndex := cmd
          scriptMap := g.scriptMap.set cmd str
          scriptCommitMap := g.scriptCommitMap.set cmd commit
          scriptHashMap := g.scriptHashMap })

/-- A sequence of `NewRedisScript` calls with the given `(commit, str)` arguments: the
returned ids in call order and the script tables afterwards. -/
def registerAll : Scripts → List (String × String) → List Int × Scripts
  | g, [] => ([], g)
  | g, (commit, str) :: rest =>
    ((NewRedisScript g commit str).1 :: (registerAll (NewRedisScript g commit str).2 rest).1,
      (registerAll (NewRedisScript g commit str).2 rest).2)

/-- The four spawning functions that touch `gocount`. -/
inductive SpawnKind where
  | Go
  | Go2
  | GoArgs
  | goForRedis
  deriving DecidableEq

/-- Where a spawned task stands, statement by statement:
`added`: the wait group was incremented (`Add(1)`), `gocount` not yet;
`running`: `gocount` was incremented and the goroutine runs the unit inside `Try`;
`returned`: `Try` has returned, the unit returned normally or its panic was recovered;
`released`: `Done()` was executed on the wait group;
`finished`: `gocount` was decremented. -/
inductive TaskPhase where
  | added
  | running
  | returned
  | released
  | finished
  deriving DecidableEq

/-- One spawned task. -/
structure Task where
  kind : SpawnKind
  phase : TaskPhase
  deriving DecidableEq

/-- The counters of func_go.go with the tasks spawned so far. `stop` is the value of
`IsStop()`, which is declared outside the files at hand. -/
structure Counters where
  waitAll : Int
  waitAllForRedis : Int
  gocount : Int
  stop : Bool
  tasks : List Task
  deriving DecidableEq

/-- The counters at program start. -/
def Counters.init : Counters :=
  { waitAll := 0, waitAllForRedis := 0, gocount := 0, stop := false, tasks := [] }

/-- An atomic step of the interleaving: the first statement of a spawning function, the
next statement of a task, a panic inside a unit, or the start of the shutdown. -/
inductive TaskStep where
  | spawn (k : SpawnKind)
  | advance (i : Nat)
  | recover (i : Nat)
  | shutdown
  deriving DecidableEq

/-- The first statement of a spawning function: `Go2` returns false when `IsStop()`;
otherwise `waitAll.Add(1)` (`waitAllForRedis.Add(1)` in `goForRedis`). -/
def spawn (c : Counters) (k : SpawnKind) : Counters :=
  match k with
  | .Go2 =>
    if c.stop then c
    else { c with waitAll := c.waitAll + 1, tasks := c.tasks ++ [⟨k, .added⟩] }
  | .goForRedis =>
    { c with waitAllForRedis := c.waitAllForRedis + 1, tasks := c.tasks ++ [⟨k, .added⟩] }
  | _ => { c with waitAll := c.waitAll + 1, tasks := c.tasks ++ [⟨k, .added⟩] }

/-- The next statement of task `i`, in program order: `atomic.AddInt32(&gocount, 1)` and the
`go` statement; the return of `Try`; `Done()` on the task's wait group;
`atomic.AddInt32(&gocount, -1)`. -/
def advance (c : Counters) (i : Nat) : Counters :=
  match c.tasks[i]? with
  | none => c
  | some t =>
    match t.phase with
    | .added =>
      { c with gocount := wrapInt32 (c.gocount + 1),
               tasks := c.tasks.set i { t with phase := .running } }
    | .running => { c with tasks := c.tasks.set i { t with phase := .returned } }
    | .returned =>
      if t.kind = .goForRedis then
        { c with waitAllForRedis := c.waitAllForRedis - 1,
                 tasks := c.tasks.set i { t with phase := .released } }
      else
        { c with waitAll := c.waitAll - 1,
                 tasks := c.tasks.set i { t with phase := .released } }
    | .released =>
      { c with gocount := wrapInt32 (c.gocount - 1),
               tasks := c.tasks.set i { t with phase := .finished } }
    | .finished => c

/-- Modelled from the spec: `Try` is declared outside the files at hand; a failure raised
inside the unit is caught at the task boundary, so when the unit of task `i` panics
control is back in the wrapper exactly as after a normal return. -/
def recover (c : Counters) (i : Nat) : Counters :=
  match c.tasks[i]? with
  | none => c
  | some t =>
    match t.phase with
    | .running => { c with tasks := c.tasks.set i { t with phase := .returned } }
    | _ => c

/-- One step of the interleaving. -/
def taskStep (c : Counters) : TaskStep → Counters
  | .spawn k => spawn c k
  | .advance i => advance c i
  | .recover i => recover c i
  | .shutdown => { c with stop := true }

/-- The state after a sequence of steps from the start. -/
def runTasks (steps : List TaskStep) : Counters := steps.foldl taskStep Counters.init

/-- Weight 1 for a task that has incremented `gocount` and not yet decremented it. -/
def countedWeight (t : Task) : Int :=
  match t.phase with
  | .running => 1
  | .returned => 1
  | .released => 1
  | _ => 0

/-- Number of tasks that have incremented `gocount` and not yet decremented it. -/
def inFlight (ts : List Task) : Int := (ts.map countedWeight).sum

/-- Weight 1 for a task spawned through `waitAll` whose `Done()` is still to come. -/
def waitWeight (t : Task) : Int :=
  if t.kind = .goForRedis then 0
  else match t.phase with
    | .added => 1
    | .running => 1
    | .returned => 1
    | _ => 0

/-- Weight 1 for a `goForRedis` task whose `Done()` is still to come. -/
def waitRedisWeight (t : Task) : Int :=
  if t.kind = .goForRedis then
    match t.phase with
    | .added => 1
    | .running => 1
    | .returned => 1
    | _ => 0
  else 0

/-- The unit of the task has returned control (normally or through a recovered panic). -/
def unitReturned (t : Task) : Bool :=
  match t.phase with
  | .returned => true
  | .released => true
  | .finished => true
  | _ => false

/-- The counters as functions of the task list. -/
structure CountersInv (c : Counters) : Prop where
  gocount_eq : c.gocount = wrapInt32 (inFlight c.tasks)
  waitAll_eq : c.waitAll = (c.tasks.map waitWeight).sum
  waitAllForRedis_eq : c.waitAllForRedis = (c.tasks.map waitRedisWeight).sum

/-- The struct `RedisConfig`. -/
structure RedisConfig where
  Addr : String
  Passwd : String
  PoolSize : Int
  deriving DecidableEq

/-- A `Redis` object on the heap: its configuration and its `pubsub` field (nil, or the
subscription handle). The embedded client is determined by `conf`. -/
structure Redis where
  conf : RedisConfig
  pubsub : Option Nat
  deriving DecidableEq

/-- A subscription handle (`*redis.PubSub`) as the program has left it: the address of the
client that opened it, the channels it was opened on, and whether `Close()` was called. -/
structure PubSub where
  addr : String
  channels : List String
  closed : Bool
  deriving DecidableEq

/-- The handler a receive loop calls: the loops of `Sub` call the captured parameter
`fun`, the loops of `Add` read the field `r.fun` at each message. -/
inductive Handler where
  | captured (f : Nat)
  | managerFun
  deriving DecidableEq

/-- A receive loop started through `Go`, blocked on `pubsub.ReceiveMessage()`. -/
structure Loop where
  pubsub : Nat
  handler : Handler
  deriving DecidableEq

/-- A `RedisManager` together with the objects it has created: `conns` is the heap of
`Redis` objects (pointers are the indices below `nconns`), `pubsubs` holds every handle
opened so far (indices below `npubsubs`), `loops` every receive loop spawned so far.
Handlers are identified by numbers; `fun_` is the field `fun` (`none` is nil). -/
structure RedisManager where
  dbs : GoMap Int Nat
  subMap : GoMap String Nat
  channels : List String
  fun_ : Option Nat
  conns : Nat → Redis
  nconns : Nat
  pubsubs : Nat → PubSub
  npubsubs : Nat
  loops : List Loop

/-- The call `pubsub.Close()` on handle `p`. -/
def closePubSub (r : RedisManager) (p : Nat) : RedisManager :=
  { r with pubsubs := Function.update r.pubsubs p { r.pubsubs p with closed := true } }

/-- The three statements `pubsub := v.Subscribe(channels...)`, `v.pubsub = pubsub` and
`Go(loop)` for the connection at `v`; `go-redis` returns a handle in every case. -/
def openSub (r : RedisManager) (v : Nat) (channels : List String) (h : Handler) :
    RedisManager :=
  { r with
    pubsubs := Function.update r.pubsubs r.npubsubs
      { addr := (r.conns v).conf.Addr, channels := channels, closed := false }
    npubsubs := r.npubsubs + 1
    conns := Function.update r.conns v { r.conns v with pubsub := some r.npubsubs }
    loops := r.loops ++ [{ pubsub := r.npubsubs, handler := h }] }

/-- The body of the first loop of `Sub`: close the handle of `v` when it has one. -/
def closeOf (r : RedisManager) (v : Nat) : RedisManager :=
  match (r.conns v).pubsub with
  | some p => closePubSub r p
  | none => r

/-- The method `RedisManager.Sub` (db_redis.go, lines 106-128). Go leaves the iteration order of
`range r.subMap` open, so the orders of the two loops are parameters. -/
def SubOrdered (r : RedisManager) (f : Nat) (channels : List String)
    (closeOrder openOrder : List (String × Nat)) : RedisManager :=
  let r1 := { r with channels := channels, fun_ := some f }
  let r2 := closeOrder.foldl (fun acc e => closeOf acc e.2) r1
  openOrder.foldl (fun acc e => openSub acc e.2 channels (.captured f)) r2

/-- The method `RedisManager.Sub` with both loops running in the order of the entries. -/
def Sub (r : RedisManager) (f : Nat) (channels : List String) : RedisManager :=
  SubOrdered r f channels r.subMap r.subMap

/-- The method `RedisManager.Add` (db_redis.go, lines 130-170). -/
def Add (r : RedisManager) (id : Int) (conf : RedisConfig) : RedisManager :=
  match r.dbs.get id with
  | some _ => r
  | none =>
    let re := r.nconns
    let r1 := { r with
      conns := Function.update r.conns re { conf := conf, pubsub := none }
      nconns := re + 1 }
    let r2 :=
      match r1.subMap.get conf.Addr with
      | some _ => r1
      | none =>
        let r3 := { r1 with subMap := r1.subMap.set conf.Addr re }
        if r3.channels.length > 0 then openSub r3 re r3.channels .managerFun else r3
    { r2 with dbs := r2.dbs.set id re }

/-- A sequence of `Add` calls, one per `(id, conf)` pair, in order. -/
def addAll (r : RedisManager) (adds : List (Int × RedisConfig)) : RedisManager :=
  adds.foldl (fun acc a => Add acc a.1 a.2) r

/-- The manager before the first `Add`, as `NewRedisManager` allocates it. -/
def RedisManager.empty : RedisManager :=
  { dbs := [], subMap := [], channels := [], fun_ := none
    conns := fun _ => { conf := { Addr := "", Passwd := "", PoolSize := 0 }, pubsub := none }
    nconns := 0
    pubsubs := fun _ => { addr := "", channels := [], closed := true }
    npubsubs := 0
    loops := [] }

/-- The function `NewRedisManager` (db_redis.go, lines 197-206). -/
def NewRedisManager (conf : RedisConfig) : RedisManager :=
  Add RedisManager.empty 0 conf

/-- Two sample configurations with different addresses. -/
def confA : RedisConfig := { Addr := "10.0.0.1:6379", Passwd := "", PoolSize := 10 }

/-- A third sample configuration, on an address of its own. -/
def confC : RedisConfig := { Addr := "10.0.0.3:6379", Passwd := "", PoolSize := 2 }

/-- The second sample configuration. -/
def confB : RedisConfig := { Addr := "10.0.0.2:6379", Passwd := "secret", PoolSize := 4 }

/-- The states reachable from `NewRedisManager` by sequential `Add` and `Sub` calls, the
loops of `Sub` visiting the entries of `subMap` in any order. -/
inductive Reachable : RedisManager → Prop where
  | init (conf : RedisConfig) : Reachable (NewRedisManager conf)
  | add {r : RedisManager} (id : Int) (conf : RedisConfig) :
      Reachable r → Reachable (Add r id conf)
  | sub {r : RedisManager} (f : Nat) (channels : List String)
      (closeOrder openOrder : List (String × Nat)) :
      Reachable r → closeOrder.Perm r.subMap → openOrder.Perm r.subMap →
      Reachable (SubOrdered r f channels closeOrder openOrder)

/-- Handle `p` is live: opened and not closed. -/
def live (r : RedisManager) (p : Nat) : Prop :=
  p < r.npubsubs ∧ (r.pubsubs p).closed = false

/-- Liveness of a handle is decidable. -/
instance liveDecidable (r : RedisManager) (p : Nat) : Decidable (live r p) := by
  unfold live; infer_instance

/-- The handler that receives a message arriving on the handle of loop `l`: none when the
handle is closed (`ReceiveMessage` fails and the loop ends), the captured handler or the
current `r.fun` otherwise. -/
def delivered (r : RedisManager) (l : Loop) : Option Nat :=
  if (r.pubsubs l.pubsub).closed then none
  else match l.handler with
    | .captured f => some f
    | .managerFun => r.fun_

/-- Address `a` is registered: some shard in `dbs` is connected to it. -/
def registered (r : RedisManager) (a : String) : Prop :=
  ∃ id v, r.dbs.get id = some v ∧ (r.conns v).conf.Addr = a

/-- What the closing loop does: it only marks handles closed, among them every handle
held by a visited connection. -/
structure CloseSpec (r : RedisManager) (l : List (String × Nat)) (r2 : RedisManager) :
    Prop where
  dbs : r2.dbs = r.dbs
  subMap : r2.subMap = r.subMap
  channels : r2.channels = r.channels
  fun_ : r2.fun_ = r.fun_
  conns : r2.conns = r.conns
  nconns : r2.nconns = r.nconns
  npubsubs : r2.npubsubs = r.npubsubs
  loops : r2.loops = r.loops
  same : ∀ p, (r2.pubsubs p).addr = (r.pubsubs p).addr ∧
    (r2.pubsubs p).channels = (r.pubsubs p).channels ∧
    ((r.pubsubs p).closed = true → (r2.pubsubs p).closed = true)
  closed : ∀ e ∈ l, ∀ p, (r.conns e.2).pubsub = some p → (r2.pubsubs p).closed = true

/-- What the opening loop does: one fresh live handle for every visited connection,
recorded in its `pubsub` field, and a receive loop with handler `h` spawned on it; the
loops that existed before are still there. -/
structure OpenSpec (r : RedisManager) (l : List (String × Nat)) (ch : List String)
    (h : Handler) (r2 : RedisManager) : Prop where
  dbs : r2.dbs = r.dbs
  subMap : r2.subMap = r.subMap
  channels : r2.channels = r.channels
  fun_ : r2.fun_ = r.fun_
  nconns : r2.nconns = r.nconns
  npubsubs : r2.npubsubs = r.npubsubs + l.length
  old : ∀ p, p < r.npubsubs → r2.pubsubs p = r.pubsubs p
  conf : ∀ v, (r2.conns v).conf = (r.conns v).conf
  untouched : ∀ v, v ∉ l.map Prod.snd → r2.conns v = r.conns v
  opened : ∀ e ∈ l, ∃ p, r.npubsubs ≤ p ∧ p < r.npubsubs + l.length ∧
    (r2.conns e.2).pubsub = some p ∧
    r2.pubsubs p = { addr := (r.conns e.2).conf.Addr, channels := ch, closed := false }
  fresh : ∀ p, r.npubsubs ≤ p → p < r.npubsubs + l.length →
    ∃ e ∈ l, (r2.conns e.2).pubsub = some p
  loops : ∀ x ∈ r2.loops, x ∈ r.loops ∨
    (r.npubsubs ≤ x.pubsub ∧ x.pubsub < r.npubsubs + l.length ∧ x.handler = h)
  keep : ∀ x ∈ r.loops, x ∈ r2.loops
  spawned : ∀ p, r.npubsubs ≤ p → p < r.npubsubs + l.length →
    ∃ x ∈ r2.loops, x.pubsub = p ∧ x.handler = h

/-- Well-formedness of a manager state: `subMap` has one entry per address, pointing to a
connection to that address; the live handles are exactly the handles held in the `pubsub`
fields of the `subMap` connections, opened on the current channel set; while the channel
set is non-empty every `subMap` connection holds a handle; every shard address is a key of
`subMap`; a receive loop on a live handle delivers to the current `fun`; every handle
opened so far has a receive loop spawned on it. -/
structure Inv (r : RedisManager) : Prop where
  keys : (r.subMap.map Prod.fst).Nodup
  addr : ∀ e ∈ r.subMap, e.2 < r.nconns ∧ (r.conns e.2).conf.Addr = e.1
  liveOwned : ∀ p, p < r.npubsubs → (r.pubsubs p).closed = false →
    ∃ e ∈ r.subMap, (r.conns e.2).pubsub = some p
  owned : ∀ e ∈ r.subMap, ∀ p, (r.conns e.2).pubsub = some p →
    p < r.npubsubs ∧ (r.pubsubs p).closed = false ∧ (r.pubsubs p).addr = e.1 ∧
    (r.pubsubs p).channels = r.channels
  active : r.channels ≠ [] → ∀ e ∈ r.subMap, (r.conns e.2).pubsub ≠ none
  dbsAddr : ∀ id v, r.dbs.get id = some v →
    v < r.nconns ∧ ∃ w, ((r.conns v).conf.Addr, w) ∈ r.subMap
  loops : ∀ x ∈ r.loops, x.pubsub < r.npubsubs ∧
    ((r.pubsubs x.pubsub).closed = false → delivered r x = r.fun_)
  looped : ∀ p, p < r.npubsubs → ∃ x ∈ r.loops, x.pubsub = p

/-- What one `Sub` call does to a well-formed state. -/
structure SubSpec (r : RedisManager) (f : Nat) (ch : List String) (r2 : RedisManager) :
    Prop where
  dbs : r2.dbs = r.dbs
  subMap : r2.subMap = r.subMap
  channels : r2.channels = ch
  fun_ : r2.fun_ = some f
  nconns : r2.nconns = r.nconns
  conf : ∀ v, (r2.conns v).conf = (r.conns v).conf
  npubsubs : r.npubsubs ≤ r2.npubsubs
  oldClosed : ∀ p, p < r.npubsubs → (r2.pubsubs p).closed = true
  opened : ∀ e ∈ r.subMap, ∃ p, r.npubsubs ≤ p ∧ p < r2.npubsubs ∧
    (r2.conns e.2).pubsub = some p ∧
    r2.pubsubs p = { addr := e.1, channels := ch, closed := false }
  fresh : ∀ p, r.npubsubs ≤ p → p < r2.npubsubs →
    ∃ e ∈ r.subMap, (r2.conns e.2).pubsub = some p
  loops : ∀ x ∈ r2.loops, (x ∈ r.loops ∧ x.pubsub < r.npubsubs) ∨
    (r.npubsubs ≤ x.pubsub ∧ x.pubsub < r2.npubsubs ∧ x.handler = .captured f)
  keep : ∀ x ∈ r.loops, x ∈ r2.loops
  spawned : ∀ p, r.npubsubs ≤ p → p < r2.npubsubs →
    ∃ x ∈ r2.loops, x.pubsub = p ∧ x.handler = .captured f

/-! ## Theorems -/

/-- Reading a key right after assigning it gives the assigned value. -/
theorem GoMap.get_set_self {κ ν : Type} [DecidableEq κ] (m : GoMap κ ν) (k : κ) (v : ν) :
    (m.set k v).get k = some v := by
  induction m with
  | nil => simp [GoMap.set, GoMap.get]
  | cons e m ih =>
    obtain ⟨k', v'⟩ := e
    by_cases h : k' = k
    · simp [GoMap.set, GoMap.get, h]
    · simp [GoMap.set, GoMap.get, h, ih]

/-- An assignment leaves the other keys as they were. -/
theorem GoMap.get_set_other {κ ν : Type} [DecidableEq κ] (m : GoMap κ ν) (k k2 : κ) (v : ν)
    (hne : k ≠ k2) : (m.set k v).get k2 = m.get k2 := by
  induction m with
  | nil => simp [GoMap.set, GoMap.get, hne]
  | cons e m ih =>
    obtain ⟨k', v'⟩ := e
    by_cases h : k' = k
    · subst h; simp [GoMap.set, GoMap.get, hne]
    · by_cases h2 : k' = k2
      · subst h2; simp [GoMap.set, GoMap.get, h]
      · simp [GoMap.set, GoMap.get, h, h2, ih]

theorem countScriptLoad_append (a b : List Call) :
    countScriptLoad (a ++ b) = countScriptLoad a + countScriptLoad b := by
  simp [countScriptLoad]

theorem countEvalSha_append (a b : List Call) :
    countEvalSha (a ++ b) = countEvalSha a + countEvalSha b := by
  simp [countEvalSha]

/-- C1 (as stated, refuted): with no script registered, `Script` still sends one `EVALSHA`
to the store, both when the store refuses it and when the store accepts it; in the second
case the reply is returned with a nil error instead of `ErrDBErr`. -/
theorem Script_unregistered_calls_store :
    Scripts.init.scriptMap.get 5 = none ∧
    (Script (failingStore "ERR unknown") Scripts.init [] 5 ["k"] []).err = some Error.ErrDBErr ∧
    (Script (failingStore "ERR unknown") Scripts.init [] 5 ["k"] []).trace
      = [Call.EvalSha "" ["k"] []] ∧
    (Script (constStore (.string "ok")) Scripts.init [] 5 ["k"] []).trace
      = [Call.EvalSha "" ["k"] []] ∧
    (Script (constStore (.string "ok")) Scripts.init [] 5 ["k"] []).re = .string "ok" ∧
    (Script (constStore (.string "ok")) Scripts.init [] 5 ["k"] []).err = none := by
  decide

/-- C1 (amended): for a command id absent from `scriptMap`, `Script` sends exactly one
`EVALSHA` (with the hash cached for the id, the empty string when there is none) and no
`SCRIPT LOAD`; it leaves the script tables unchanged; when that `EVALSHA` fails, whatever
its message, the result is `(nil, ErrDBErr)`, and when it succeeds the reply is returned
with a nil error. -/
theorem Script_unregistered (st : Store) (g : Scripts) (trace : List Call) (cmd : Int)
    (keys : List String) (args : List Value) (hcmd : g.scriptMap.get cmd = none) :
    (Script st g trace cmd keys args).trace
        = trace ++ [Call.EvalSha ((g.scriptHashMap.get cmd).getD "") keys args] ∧
    countScriptLoad (Script st g trace cmd keys args).trace = countScriptLoad trace ∧
    (Script st g trace cmd keys args).scripts = g ∧
    (∀ msg, st.EvalSha trace ((g.scriptHashMap.get cmd).getD "") keys args = .error msg →
      (Script st g trace cmd keys args).re = .nil ∧
      (Script st g trace cmd keys args).err = some .ErrDBErr) ∧
    (∀ re, st.EvalSha trace ((g.scriptHashMap.get cmd).getD "") keys args = .ok re →
      (Script st g trace cmd keys args).re = re ∧
      (Script st g trace cmd keys args).err = none) := by
  unfold Script
  simp only [hcmd]
  cases h : st.EvalSha trace ((g.scriptHashMap.get cmd).getD "") keys args <;>
    simp [countScriptLoad_append, countScriptLoad]

theorem Script_unregistered_witness :
    (Script (failingStore "NOSCRIPT No matching script.") Scripts.init [] 5 ["k"] []).trace
      = [] ++ [Call.EvalSha (((Scripts.init).scriptHashMap.get 5).getD "") ["k"] []] :=
  (Script_unregistered (failingStore "NOSCRIPT No matching script.") Scripts.init [] 5 ["k"] []
    (by decide)).1

/-- C2 (as stated, refuted): for a registered id with no cached hash, a store whose first
`EVALSHA` fails with a message other than `NOSCRIPT`, or succeeds, receives no
`SCRIPT LOAD` at all. -/
theorem Script_absent_hash_no_load :
    oneScript.scriptMap.get 1 = some "return 1" ∧ oneScript.scriptHashMap.get 1 = none ∧
    countScriptLoad (Script (failingStore "connection refused") oneScript [] 1 [] []).trace = 0 ∧
    countScriptLoad (Script (constStore (.int64 0)) oneScript [] 1 [] []).trace = 0 := by
  decide

/-- C2 (amended): for a registered id with no cached hash and every behaviour of the
store, one invocation of `Script` issues at most one `SCRIPT LOAD` and one or two
`EVALSHA` calls; it issues exactly one `SCRIPT LOAD` precisely when the first `EVALSHA`
(sent with the empty hash) fails with a message that starts with `NOSCRIPT `. -/
theorem Script_absent_hash_call_counts (st : Store) (g : Scripts) (trace : List Call)
    (cmd : Int) (keys : List String) (args : List Value) (script : String)
    (hreg : g.scriptMap.get cmd = some script) (hhash : g.scriptHashMap.get cmd = none) :
    ∃ calls, (Script st g trace cmd keys args).trace = trace ++ calls ∧
      countScriptLoad calls ≤ 1 ∧ 1 ≤ countEvalSha calls ∧ countEvalSha calls ≤ 2 ∧
      (countScriptLoad calls = 1 ↔
        ∃ msg, st.EvalSha trace "" keys args = .error msg ∧ HasPrefix msg "NOSCRIPT " = true) := by
  unfold Script
  simp only [hreg, hhash, Option.getD_none]
  cases h1 : st.EvalSha trace "" keys args with
  | ok re => exact ⟨[Call.EvalSha "" keys args], by simp [countScriptLoad, countEvalSha]⟩
  | error msg =>
    by_cases hp : HasPrefix msg "NOSCRIPT " = true
    · simp only [hp, if_true]
      cases h2 : st.ScriptLoad (trace ++ [Call.EvalSha "" keys args]) script with
      | error e =>
        exact ⟨[Call.EvalSha "" keys args, Call.ScriptLoad script],
          by simp [countScriptLoad, countEvalSha, hp]⟩
      | ok h =>
        dsimp only
        split <;>
          exact ⟨[Call.EvalSha "" keys args, Call.ScriptLoad script, Call.EvalSha h keys args],
            by simp [countScriptLoad, countEvalSha, hp]⟩
    · simp only [hp]
      exact ⟨[Call.EvalSha "" keys args], by simp [countScriptLoad, countEvalSha, hp]⟩

theorem Script_absent_hash_call_counts_witness :
    ∃ calls, (Script (freshStore "h1" (.string "ok")) oneScript [] 1 ["k"] []).trace
        = [] ++ calls ∧
      countScriptLoad calls ≤ 1 ∧ 1 ≤ countEvalSha calls ∧ countEvalSha calls ≤ 2 ∧
      (countScriptLoad calls = 1 ↔
        ∃ msg, (freshStore "h1" (.string "ok")).EvalSha [] "" ["k"] [] = .error msg ∧
          HasPrefix msg "NOSCRIPT " = true) :=
  Script_absent_hash_call_counts (freshStore "h1" (.string "ok")) oneScript [] 1 ["k"] []
    "return 1" (by decide) (by decide)

/-- The test `HasPrefix s pre` holds exactly when `s` is `pre` followed by some text, character
for character (so the comparison is case-sensitive). -/
theorem HasPrefix_iff (s pre : String) :
    HasPrefix s pre = true ↔ ∃ rest : String, s = pre ++ rest := by
  unfold HasPrefix
  simp only [Bool.and_eq_true, decide_eq_true_eq, beq_iff_eq]
  constructor
  · rintro ⟨_, h⟩
    refine ⟨String.mk (s.toList.drop pre.length), ?_⟩
    apply String.ext
    have := List.take_append_drop pre.length s.toList
    simp only [String.toList] at h this
    simp only [String.data_append]
    rw [← h]
    exact this.symm
  · rintro ⟨rest, rfl⟩
    refine ⟨by rw [String.length_append]; omega, ?_⟩
    show List.take pre.data.length (pre ++ rest).data = pre.data
    rw [String.data_append, List.take_left]

/-- C3: for a registered command id, when the first `EVALSHA` fails with a message that
starts with `NOSCRIPT `, `Script` sends `SCRIPT LOAD` with the registered source; a failed
load gives `(nil, ErrDBErr)` with `scriptHashMap` unchanged; a load that returns `h` stores
`h` under the id, is followed by exactly one more `EVALSHA` with `h` and the same keys and
args, and the result is that retry's reply with a nil error, or `(nil, ErrDBErr)` when the
retry fails. When the first `EVALSHA` fails with any other message the result is
`(nil, ErrDBErr)` with no `SCRIPT LOAD`, no retry and the tables unchanged. -/
theorem Script_reload_retry (st : Store) (g : Scripts) (trace : List Call) (cmd : Int)
    (keys : List String) (args : List Value) (script msg : String)
    (hreg : g.scriptMap.get cmd = some script)
    (hfail : st.EvalSha trace ((g.scriptHashMap.get cmd).getD "") keys args = .error msg) :
    (HasPrefix msg "NOSCRIPT " = true →
      (∀ e, st.ScriptLoad (trace ++ [Call.EvalSha ((g.scriptHashMap.get cmd).getD "") keys args])
            script = .error e →
        (Script st g trace cmd keys args).re = .nil ∧
        (Script st g trace cmd keys args).err = some .ErrDBErr ∧
        (Script st g trace cmd keys args).scripts = g ∧
        (Script st g trace cmd keys args).trace
          = trace ++ [Call.EvalSha ((g.scriptHashMap.get cmd).getD "") keys args,
                      Call.ScriptLoad script]) ∧
      (∀ h, st.ScriptLoad (trace ++ [Call.EvalSha ((g.scriptHashMap.get cmd).getD "") keys args])
            script = .ok h →
        (Script st g trace cmd keys args).scripts
          = { g with scriptHashMap := g.scriptHashMap.set cmd h } ∧
        (Script st g trace cmd keys args).scripts.scriptHashMap.get cmd = some h ∧
        (Script st g trace cmd keys args).trace
          = trace ++ [Call.EvalSha ((g.scriptHashMap.get cmd).getD "") keys args,
                      Call.ScriptLoad script, Call.EvalSha h keys args] ∧
        (∀ re, st.EvalSha (trace ++ [Call.EvalSha ((g.scriptHashMap.get cmd).getD "") keys args,
                      Call.ScriptLoad script]) h keys args = .ok re →
          (Script st g trace cmd keys args).re = re ∧
          (Script st g trace cmd keys args).err = none) ∧
        (∀ e, st.EvalSha (trace ++ [Call.EvalSha ((g.scriptHashMap.get cmd).getD "") keys args,
                      Call.ScriptLoad script]) h keys args = .error e →
          (Script st g trace cmd keys args).re = .nil ∧
          (Script st g trace cmd keys args).err = some .ErrDBErr))) ∧
    (HasPrefix msg "NOSCRIPT " = false →
      (Script st g trace cmd keys args).re = .nil ∧
      (Script st g trace cmd keys args).err = some .ErrDBErr ∧
      (Script st g trace cmd keys args).scripts = g ∧
      (Script st g trace cmd keys args).trace
        = trace ++ [Call.EvalSha ((g.scriptHashMap.get cmd).getD "") keys args]) := by
  unfold Script
  simp only [hreg, hfail]
  refine ⟨fun hp => ⟨fun e he => ?_,
    fun h hh => ⟨?_, ?_, ?_, fun re hre => ?_, fun e he => ?_⟩⟩, fun hp => ?_⟩
  · simp [hp, he]
  · simp only [hp, hh, if_true]; split <;> rfl
  · simp only [hp, hh, if_true]; split <;> exact GoMap.get_set_self _ _ _
  · simp only [hp, hh, if_true]; split <;> simp
  · simp only [hp, hh, if_true, List.append_assoc, List.singleton_append] at hre ⊢
    simp [hre]
  · simp only [hp, hh, if_true, List.append_assoc, List.singleton_append] at he ⊢
    simp [he]
  · simp [hp]

theorem Script_reload_retry_witness :
    (Script (freshStore "h1" (.string "ok")) oneScript [] 1 ["k"] []).scripts.scriptHashMap.get 1
        = some "h1" ∧
    (Script (freshStore "h1" (.string "ok")) oneScript [] 1 ["k"] []).re = .string "ok" := by
  have h := ((Script_reload_retry (freshStore "h1" (.string "ok")) oneScript [] 1 ["k"] []
    "return 1" "NOSCRIPT No matching script." (by decide) rfl).1 (by decide)).2
      "h1" rfl
  exact ⟨h.2.1, (h.2.2.2.1 (.string "ok") rfl).1⟩

/-- C4: `ScriptStr` classifies the outcome of `Script`: an error gives `("", ErrDBErr)`;
an integer reply `n` gives the empty string with `GetError (uint16 n)`, which is the table
entry of `n` itself for `0 ≤ n ≤ 65535`; a string reply `s` gives `(s, nil)`; every other
reply gives `("", ErrDBDataType)`. The error handed to the caller is therefore nil,
`ErrDBErr`, `ErrDBDataType` or a value of `GetError`. -/
theorem ScriptStr_classifies (GetError : Nat → Option Error) (st : Store) (g : Scripts)
    (trace : List Call) (cmd : Int) (keys : List String) (args : List Value) :
    ((Script st g trace cmd keys args).err ≠ none →
      ScriptStr GetError st g trace cmd keys args = ("", some .ErrDBErr)) ∧
    ((Script st g trace cmd keys args).err = none →
      (∀ n, (Script st g trace cmd keys args).re = .int64 n →
        ScriptStr GetError st g trace cmd keys args = ("", GetError (toUint16 n)) ∧
        (0 ≤ n → n ≤ 65535 →
          ScriptStr GetError st g trace cmd keys args = ("", GetError n.toNat))) ∧
      (∀ s, (Script st g trace cmd keys args).re = .string s →
        ScriptStr GetError st g trace cmd keys args = (s, none)) ∧
      ((∀ n, (Script st g trace cmd keys args).re ≠ .int64 n) →
        (∀ s, (Script st g trace cmd keys args).re ≠ .string s) →
        ScriptStr GetError st g trace cmd keys args = ("", some .ErrDBDataType))) ∧
    ((ScriptStr GetError st g trace cmd keys args).2 = none ∨
      (ScriptStr GetError st g trace cmd keys args).2 = some .ErrDBErr ∨
      (ScriptStr GetError st g trace cmd keys args).2 = some .ErrDBDataType ∨
      ∃ c, (ScriptStr GetError st g trace cmd keys args).2 = GetError c) := by
  unfold ScriptStr
  generalize Script st g trace cmd keys args = out
  obtain ⟨re, err, sc, tr⟩ := out
  cases err with
  | some e => simp
  | none =>
    cases re with
    | nil => simp
    | int64 n =>
      simp only [ne_eq, not_true_eq_false, false_implies, true_and, forall_true_left]
      refine ⟨⟨fun m hm => ?_, by simp, by simp⟩, Or.inr (Or.inr (Or.inr ⟨_, rfl⟩))⟩
      cases hm
      refine ⟨rfl, fun h0 h1 => ?_⟩
      have : toUint16 n = n.toNat := by
        unfold toUint16
        rw [Int.emod_eq_of_lt h0 (by omega)]
      rw [this]
    | string s => simp
    | other t => simp

theorem ScriptStr_classifies_witness :
    ScriptStr sampleTable (constStore (.int64 7)) oneScript [] 1 [] []
      = ("", some (.table 7)) :=
  ((((ScriptStr_classifies sampleTable (constStore (.int64 7)) oneScript [] 1 [] []).2.1
    (by decide)).1 7 (by decide)).2 (by decide) (by decide))

/-- C5 (as stated, refuted): on the integer reply 7 `ScriptInt64` returns the integer
itself with a nil error, not the error the code table gives for 7. -/
theorem ScriptInt64_integer_is_success :
    (Script (constStore (.int64 7)) oneScript [] 1 [] []).re = .int64 7 ∧
    (Script (constStore (.int64 7)) oneScript [] 1 [] []).err = none ∧
    ScriptInt64 (constStore (.int64 7)) oneScript [] 1 [] [] = (7, none) := by
  decide

/-- C5 (amended): `ScriptInt64` returns an integer reply `n` as the success value
`(n, nil)`; for every reply that is not an integer, strings included, it returns
`(0, ErrDBDataType)`; when `Script` fails it returns `(0, ErrDBErr)`. -/
theorem ScriptInt64_classifies (st : Store) (g : Scripts)
    (trace : List Call) (cmd : Int) (keys : List String) (args : List Value) :
    ((Script st g trace cmd keys args).err ≠ none →
      ScriptInt64 st g trace cmd keys args = (0, some .ErrDBErr)) ∧
    ((Script st g trace cmd keys args).err = none →
      (∀ n, (Script st g trace cmd keys args).re = .int64 n →
        ScriptInt64 st g trace cmd keys args = (n, none)) ∧
      ((∀ n, (Script st g trace cmd keys args).re ≠ .int64 n) →
        ScriptInt64 st g trace cmd keys args = (0, some .ErrDBDataType))) := by
  unfold ScriptInt64
  generalize Script st g trace cmd keys args = out
  obtain ⟨re, err, sc, tr⟩ := out
  cases err with
  | some e => simp
  | none => cases re <;> simp

theorem ScriptInt64_classifies_witness :
    ScriptInt64 (constStore (.string "payload")) oneScript [] 1 [] []
      = (0, some .ErrDBDataType) :=
  ((ScriptInt64_classifies (constStore (.string "payload")) oneScript [] 1 [] []).2
    (by decide)).2 (fun n h => Value.noConfusion (h : Value.string "payload" = Value.int64 n))

theorem wrapInt32_add (a b : Int) : wrapInt32 (wrapInt32 a + b) = wrapInt32 (a + b) := by
  unfold wrapInt32; omega

theorem wrapInt32_of_inRange (a : Int) (h0 : -2147483648 ≤ a) (h1 : a ≤ 2147483647) :
    wrapInt32 a = a := by
  unfold wrapInt32; omega

theorem registerAll_length (g : Scripts) (calls : List (String × String)) :
    (registerAll g calls).1.length = calls.length := by
  induction calls generalizing g with
  | nil => rfl
  | cons c rest ih => obtain ⟨commit, str⟩ := c; simp [registerAll, ih]

theorem registerAll_get (g : Scripts) (calls : List (String × String)) (k : Nat)
    (hk : k < calls.length) :
    (registerAll g calls).1[k]? = some (wrapInt32 (g.scriptIndex + (k + 1))) := by
  induction calls generalizing g k with
  | nil => simp at hk
  | cons c rest ih =>
    obtain ⟨commit, str⟩ := c
    cases k with
    | zero => simp [registerAll, NewRedisScript]
    | succ k =>
      simp only [registerAll, List.getElem?_cons_succ]
      rw [ih _ k (by simpa using hk)]
      simp only [NewRedisScript, wrapInt32_add]
      congr 2
      push_cast
      ring

theorem registerAll_append (g : Scripts) (a b : List (String × String)) :
    registerAll g (a ++ b)
      = ((registerAll g a).1 ++ (registerAll (registerAll g a).2 b).1,
         (registerAll (registerAll g a).2 b).2) := by
  induction a generalizing g with
  | nil => simp [registerAll]
  | cons c rest ih => obtain ⟨commit, str⟩ := c; simp [registerAll, ih]

theorem registerAll_scriptIndex (g : Scripts) (calls : List (String × String))
    (h0 : -2147483648 ≤ g.scriptIndex) (h1 : g.scriptIndex ≤ 2147483647) :
    (registerAll g calls).2.scriptIndex = wrapInt32 (g.scriptIndex + calls.length) := by
  induction calls generalizing g with
  | nil => simp [registerAll, wrapInt32_of_inRange _ h0 h1]
  | cons c rest ih =>
    obtain ⟨commit, str⟩ := c
    simp only [registerAll, List.length_cons]
    rw [ih]
    · simp only [NewRedisScript, wrapInt32_add]
      congr 1
      push_cast
      ring
    · simp only [NewRedisScript, wrapInt32]; omega
    · simp only [NewRedisScript, wrapInt32]; omega

theorem registerAll_scriptHashMap (g : Scripts) (calls : List (String × String)) :
    (registerAll g calls).2.scriptHashMap = g.scriptHashMap := by
  induction calls generalizing g with
  | nil => rfl
  | cons c rest ih => obtain ⟨commit, str⟩ := c; simp [registerAll, ih, NewRedisScript]

theorem registerAll_ids_eq (calls : List (String × String)) (hlen : calls.length ≤ 2147483647) :
    (registerAll Scripts.init calls).1 = (List.range calls.length).map (fun (i : Nat) => (i : Int) + 1) := by
  apply List.ext_getElem?
  intro k
  by_cases hk : k < calls.length
  · rw [registerAll_get _ _ _ hk]
    simp only [Scripts.init, zero_add]
    rw [wrapInt32_of_inRange _ (by omega) (by omega), List.getElem?_map,
      List.getElem?_range hk]
    rfl
  · rw [List.getElem?_eq_none (by rw [registerAll_length]; omega),
      List.getElem?_eq_none (by rw [List.length_map, List.length_range]; omega)]

/-- C6 (as stated, refuted): from the initial state the call number 2147483648 returns
-2147483648, right after the call that returned 2147483647: the ids are not increasing
there and the k-th call does not return k. -/
theorem NewRedisScript_ids_wrap :
    (registerAll Scripts.init (List.replicate 2147483648 ("v1", "return 1"))).1[2147483646]?
      = some 2147483647 ∧
    (registerAll Scripts.init (List.replicate 2147483648 ("v1", "return 1"))).1[2147483647]?
      = some (-2147483648) := by
  constructor
  · rw [registerAll_get _ _ _ (by rw [List.length_replicate]; omega)]
    simp only [Scripts.init, wrapInt32]
    norm_num
  · rw [registerAll_get _ _ _ (by rw [List.length_replicate]; omega)]
    simp only [Scripts.init, wrapInt32]
    norm_num

/-- C6 (amended): for every sequence of at most 2147483647 `NewRedisScript` calls made
from the initial state, the k-th call returns k, so the ids are strictly increasing,
pairwise distinct and never zero; and right after the k-th call `scriptMap` and
`scriptCommitMap` hold the given source and commit label under the returned id while
`scriptHashMap` has no entry for it. -/
theorem NewRedisScript_ids (calls : List (String × String))
    (hlen : calls.length ≤ 2147483647) :
    (registerAll Scripts.init calls).1.length = calls.length ∧
    (∀ k, k < calls.length → (registerAll Scripts.init calls).1[k]? = some ((k : Int) + 1)) ∧
    (registerAll Scripts.init calls).1.Pairwise (· < ·) ∧
    (registerAll Scripts.init calls).1.Nodup ∧
    (0 : Int) ∉ (registerAll Scripts.init calls).1 ∧
    (∀ k (hk : k < calls.length),
      (registerAll Scripts.init (calls.take (k + 1))).1.getLast? = some ((k : Int) + 1) ∧
      (registerAll Scripts.init (calls.take (k + 1))).2.scriptMap.get ((k : Int) + 1)
        = some (calls.get ⟨k, hk⟩).2 ∧
      (registerAll Scripts.init (calls.take (k + 1))).2.scriptCommitMap.get ((k : Int) + 1)
        = some (calls.get ⟨k, hk⟩).1 ∧
      (registerAll Scripts.init (calls.take (k + 1))).2.scriptHashMap.get ((k : Int) + 1)
        = none) := by
  have hpw : (registerAll Scripts.init calls).1.Pairwise (· < ·) := by
    rw [registerAll_ids_eq calls hlen, List.pairwise_map]
    exact (List.pairwise_lt_range _).imp (fun {a b} h => by
      show (a : Int) + 1 < (b : Int) + 1
      omega)
  refine ⟨registerAll_length _ _, fun k hk => ?_, hpw, ?_, ?_, fun k hk => ?_⟩
  · rw [registerAll_ids_eq calls hlen, List.getElem?_map, List.getElem?_range hk]
    rfl
  · exact hpw.imp (fun h => ne_of_lt h)
  · rw [registerAll_ids_eq calls hlen]
    simp only [List.mem_map, List.mem_range, not_exists, not_and]
    intro i _ h
    have h2 : (i : Int) + 1 = 0 := h
    omega
  · have htake : calls.take (k + 1) = calls.take k ++ [calls.get ⟨k, hk⟩] := by
      rw [List.take_succ, List.getElem?_eq_getElem hk]; rfl
    have hidx : (registerAll Scripts.init (calls.take k)).2.scriptIndex = (k : Int) := by
      rw [registerAll_scriptIndex _ _ (by simp [Scripts.init]) (by simp [Scripts.init])]
      simp only [Scripts.init, zero_add, List.length_take, Nat.min_eq_left (le_of_lt hk)]
      exact wrapInt32_of_inRange _ (by omega) (by omega)
    have hcmd : wrapInt32 ((k : Int) + 1) = (k : Int) + 1 :=
      wrapInt32_of_inRange _ (by omega) (by omega)
    rw [htake, registerAll_append]
    obtain ⟨commit, str⟩ := calls.get ⟨k, hk⟩
    simp only [registerAll, NewRedisScript, hidx, hcmd, registerAll_scriptHashMap]
    refine ⟨by simp, GoMap.get_set_self _ _ _, GoMap.get_set_self _ _ _, rfl⟩

theorem NewRedisScript_ids_witness :
    (registerAll Scripts.init [("v1", "return 1"), ("v2", "return 2")]).1 = [1, 2] ∧
    (registerAll Scripts.init [("v1", "return 1"), ("v2", "return 2")]).2.scriptMap.get 2
      = some "return 2" := by
  have h := NewRedisScript_ids [("v1", "return 1"), ("v2", "return 2")] (by decide)
  exact ⟨by decide, (h.2.2.2.2.2 1 (by decide)).2.1⟩

theorem sum_map_set (f : Task → Int) (l : List Task) (i : Nat) (t t2 : Task)
    (h : l[i]? = some t) :
    ((l.set i t2).map f).sum = (l.map f).sum - f t + f t2 := by
  induction l generalizing i with
  | nil => simp at h
  | cons a l ih =>
    cases i with
    | zero =>
      simp only [List.getElem?_cons_zero, Option.some.injEq] at h
      subst h
      simp only [List.set_cons_zero, List.map_cons, List.sum_cons]
      ring
    | succ i =>
      simp only [List.getElem?_cons_succ] at h
      simp only [List.set_cons_succ, List.map_cons, List.sum_cons, ih i h]
      ring

theorem CountersInv_init : CountersInv Counters.init := by
  constructor <;> simp [Counters.init, inFlight, wrapInt32]

theorem CountersInv_spawn (c : Counters) (k : SpawnKind) (h : CountersInv c) :
    CountersInv (spawn c k) := by
  obtain ⟨h1, h2, h3⟩ := h
  cases k <;> (try by_cases hs : c.stop = true) <;>
    constructor <;>
    simp [spawn, inFlight, countedWeight, waitWeight, waitRedisWeight, h1, h2, h3, hs]

theorem CountersInv_advance (c : Counters) (i : Nat) (h : CountersInv c) :
    CountersInv (advance c i) := by
  obtain ⟨h1, h2, h3⟩ := h
  unfold advance
  cases ht : c.tasks[i]? with
  | none => exact ⟨h1, h2, h3⟩
  | some t =>
    obtain ⟨k, ph⟩ := t
    cases ph <;> dsimp only
    · constructor
      · simp only [inFlight, sum_map_set _ _ _ _ _ ht, countedWeight, h1, wrapInt32_add]
        congr 1; ring
      · simp only [sum_map_set _ _ _ _ _ ht, waitWeight, h2]; ring
      · simp only [sum_map_set _ _ _ _ _ ht, waitRedisWeight, h3]; ring
    · constructor
      · simp only [inFlight, sum_map_set _ _ _ _ _ ht, countedWeight, h1]
        congr 1; ring
      · simp only [sum_map_set _ _ _ _ _ ht, waitWeight, h2]; ring
      · simp only [sum_map_set _ _ _ _ _ ht, waitRedisWeight, h3]; ring
    · by_cases hk : k = .goForRedis
      · simp only [hk, if_true]
        constructor
        · simp only [inFlight, sum_map_set _ _ _ _ _ ht, countedWeight, h1]
          congr 1; ring
        · simp only [sum_map_set _ _ _ _ _ ht, waitWeight, h2, hk, if_true]; ring
        · simp only [sum_map_set _ _ _ _ _ ht, waitRedisWeight, h3, hk, if_true]; ring
      · simp only [hk, if_false]
        constructor
        · simp only [inFlight, sum_map_set _ _ _ _ _ ht, countedWeight, h1]
          congr 1; ring
        · simp only [sum_map_set _ _ _ _ _ ht, waitWeight, h2, hk, if_false]; ring
        · simp only [sum_map_set _ _ _ _ _ ht, waitRedisWeight, h3, hk, if_false]; ring
    · constructor
      · simp only [inFlight, sum_map_set _ _ _ _ _ ht, countedWeight, h1, sub_eq_add_neg,
          wrapInt32_add]
        congr 1; ring
      · simp only [sum_map_set _ _ _ _ _ ht, waitWeight, h2]; split <;> ring
      · simp only [sum_map_set _ _ _ _ _ ht, waitRedisWeight, h3]; split <;> ring
    · exact ⟨h1, h2, h3⟩

theorem CountersInv_recover (c : Counters) (i : Nat) (h : CountersInv c) :
    CountersInv (recover c i) := by
  obtain ⟨h1, h2, h3⟩ := h
  unfold recover
  cases ht : c.tasks[i]? with
  | none => exact ⟨h1, h2, h3⟩
  | some t =>
    obtain ⟨k, ph⟩ := t
    cases ph <;> dsimp only <;> first
      | exact ⟨h1, h2, h3⟩
      | (constructor
         · simp only [inFlight, sum_map_set _ _ _ _ _ ht, countedWeight, h1]
           congr 1; ring
         · simp only [sum_map_set _ _ _ _ _ ht, waitWeight, h2]; ring
         · simp only [sum_map_set _ _ _ _ _ ht, waitRedisWeight, h3]; ring)

theorem CountersInv_foldl (steps : List TaskStep) (c : Counters) (h : CountersInv c) :
    CountersInv (steps.foldl taskStep c) := by
  induction steps generalizing c with
  | nil => exact h
  | cons s rest ih =>
    apply ih
    cases s with
    | spawn k => exact CountersInv_spawn c k h
    | advance i => exact CountersInv_advance c i h
    | recover i => exact CountersInv_recover c i h
    | shutdown => exact ⟨h.1, h.2, h.3⟩

theorem sum_eq_zero_of_forall (f : Task → Int) (l : List Task) (h : ∀ t ∈ l, f t = 0) :
    (l.map f).sum = 0 := by
  induction l with
  | nil => rfl
  | cons a l ih =>
    simp only [List.map_cons, List.sum_cons, h a (List.mem_cons_self _ _),
      ih (fun t ht => h t (List.mem_cons_of_mem _ ht)), add_zero]

/-- C7 (as stated, refuted): after `Go` has spawned one task, its unit has returned and
its `Done()` has run, `waitAll` and `waitAllForRedis` are zero and every spawned unit has
returned control, yet `gocount` is 1: the decrement comes after `Done()`. -/
theorem gocount_positive_after_drain :
    (runTasks [.spawn .Go, .advance 0, .advance 0, .advance 0]).waitAll = 0 ∧
    (runTasks [.spawn .Go, .advance 0, .advance 0, .advance 0]).waitAllForRedis = 0 ∧
    (∀ t ∈ (runTasks [.spawn .Go, .advance 0, .advance 0, .advance 0]).tasks,
      unitReturned t = true) ∧
    (runTasks [.spawn .Go, .advance 0, .advance 0, .advance 0]).gocount = 1 := by
  decide

/-- C7 (amended): in every state reachable by interleaving the steps of `Go`, `Go2`,
`GoArgs` and `goForRedis`, `gocount` is the number of tasks that have executed their
increment and not yet their decrement (wrapped to `int32`), and each wait group counts its
tasks whose `Done()` is still to come; whenever every spawned task has executed its final
decrement, `gocount` is exactly 0 and both wait groups are zero. -/
theorem gocount_zero_when_finished (steps : List TaskStep) :
    (runTasks steps).gocount = wrapInt32 (inFlight (runTasks steps).tasks) ∧
    (runTasks steps).waitAll = ((runTasks steps).tasks.map waitWeight).sum ∧
    (runTasks steps).waitAllForRedis = ((runTasks steps).tasks.map waitRedisWeight).sum ∧
    ((∀ t ∈ (runTasks steps).tasks, t.phase = .finished) →
      (runTasks steps).gocount = 0 ∧ (runTasks steps).waitAll = 0 ∧
      (runTasks steps).waitAllForRedis = 0) := by
  have h : CountersInv (runTasks steps) := CountersInv_foldl steps Counters.init CountersInv_init
  refine ⟨h.1, h.2, h.3, fun hfin => ?_⟩
  refine ⟨?_, ?_, ?_⟩
  · rw [h.1, inFlight, sum_eq_zero_of_forall _ _ (fun t ht => by simp [countedWeight, hfin t ht])]
    decide
  · rw [h.2, sum_eq_zero_of_forall _ _ (fun t ht => by simp [waitWeight, hfin t ht])]
  · rw [h.3, sum_eq_zero_of_forall _ _ (fun t ht => by simp [waitRedisWeight, hfin t ht])]

theorem gocount_zero_when_finished_witness :
    (runTasks [.spawn .Go, .spawn .goForRedis, .advance 0, .advance 1, .recover 1, .advance 0,
      .advance 0, .advance 1, .advance 1, .advance 0]).gocount = 0 :=
  ((gocount_zero_when_finished [.spawn .Go, .spawn .goForRedis, .advance 0, .advance 1,
    .recover 1, .advance 0, .advance 0, .advance 1, .advance 1, .advance 0]).2.2.2
      (by decide)).1

theorem GoMap.mem_of_get {κ ν : Type} [DecidableEq κ] (m : GoMap κ ν) (k : κ) (v : ν)
    (h : m.get k = some v) : (k, v) ∈ m := by
  induction m with
  | nil => simp [GoMap.get] at h
  | cons e m ih =>
    obtain ⟨k', v'⟩ := e
    by_cases hk : k' = k
    · simp only [GoMap.get, hk, if_true, Option.some.injEq] at h
      simp [hk, h]
    · simp only [GoMap.get, hk, if_false] at h
      exact List.mem_cons_of_mem _ (ih h)

theorem GoMap.not_mem_keys_of_get_none {κ ν : Type} [DecidableEq κ] (m : GoMap κ ν) (k : κ)
    (h : m.get k = none) : k ∉ m.map Prod.fst := by
  induction m with
  | nil => simp
  | cons e m ih =>
    obtain ⟨k', v'⟩ := e
    by_cases hk : k' = k
    · simp [GoMap.get, hk] at h
    · simp only [GoMap.get, hk, if_false] at h
      simp only [List.map_cons, List.mem_cons, not_or]
      exact ⟨fun h2 => hk h2.symm, ih h⟩

theorem GoMap.set_of_get_none {κ ν : Type} [DecidableEq κ] (m : GoMap κ ν) (k : κ) (v : ν)
    (h : m.get k = none) : m.set k v = m ++ [(k, v)] := by
  induction m with
  | nil => rfl
  | cons e m ih =>
    obtain ⟨k', v'⟩ := e
    by_cases hk : k' = k
    · simp [GoMap.get, hk] at h
    · simp only [GoMap.get, hk, if_false] at h
      simp [GoMap.set, hk, ih h]

theorem closeOf_spec (r : RedisManager) (v : Nat) :
    (closeOf r v).dbs = r.dbs ∧ (closeOf r v).subMap = r.subMap ∧
    (closeOf r v).channels = r.channels ∧ (closeOf r v).fun_ = r.fun_ ∧
    (closeOf r v).conns = r.conns ∧ (closeOf r v).nconns = r.nconns ∧
    (closeOf r v).npubsubs = r.npubsubs ∧ (closeOf r v).loops = r.loops ∧
    (∀ p, ((closeOf r v).pubsubs p).addr = (r.pubsubs p).addr ∧
      ((closeOf r v).pubsubs p).channels = (r.pubsubs p).channels ∧
      ((r.pubsubs p).closed = true → ((closeOf r v).pubsubs p).closed = true)) ∧
    (∀ p, (r.conns v).pubsub = some p → ((closeOf r v).pubsubs p).closed = true) := by
  unfold closeOf
  cases h : (r.conns v).pubsub with
  | none => simp
  | some q =>
    refine ⟨rfl, rfl, rfl, rfl, rfl, rfl, rfl, rfl, fun p => ?_, fun p hp => ?_⟩
    · by_cases hpq : p = q
      · subst hpq; simp [closePubSub]
      · simp [closePubSub, Function.update_noteq hpq]
    · simp only [Option.some.injEq] at hp
      subst hp
      simp [closePubSub]

theorem closeFold_spec (l : List (String × Nat)) (r : RedisManager) :
    CloseSpec r l (l.foldl (fun acc e => closeOf acc e.2) r) := by
  induction l generalizing r with
  | nil =>
    exact ⟨rfl, rfl, rfl, rfl, rfl, rfl, rfl, rfl, fun p => ⟨rfl, rfl, id⟩,
      fun e he => by simp at he⟩
  | cons a l ih =>
    have h1 := closeOf_spec r a.2
    have h2 := ih (closeOf r a.2)
    obtain ⟨a1, a2, a3, a4, a5, a6, a7, a8, a9, a10⟩ := h1
    simp only [List.foldl_cons]
    refine ⟨h2.dbs.trans a1, h2.subMap.trans a2, h2.channels.trans a3, h2.fun_.trans a4,
      h2.conns.trans a5, h2.nconns.trans a6, h2.npubsubs.trans a7, h2.loops.trans a8,
      fun p => ⟨(h2.same p).1.trans (a9 p).1, (h2.same p).2.1.trans (a9 p).2.1,
        fun hc => (h2.same p).2.2 ((a9 p).2.2 hc)⟩, fun e he p hp => ?_⟩
    rcases List.mem_cons.1 he with rfl | he
    · exact (h2.same p).2.2 (a10 p hp)
    · exact h2.closed e he p (by rw [a5]; exact hp)

theorem openFold_spec (l : List (String × Nat)) (ch : List String) (h : Handler)
    (r : RedisManager) (hnd : (l.map Prod.snd).Nodup) :
    OpenSpec r l ch h (l.foldl (fun acc e => openSub acc e.2 ch h) r) := by
  induction l generalizing r with
  | nil =>
    exact ⟨rfl, rfl, rfl, rfl, rfl, rfl, fun _ _ => rfl, fun _ => rfl, fun _ _ => rfl,
      fun e he => by simp at he, fun p h1 h2 => by simp at h2; omega, fun x hx => Or.inl hx,
      fun x hx => hx, fun p h1 h2 => by simp at h2; omega⟩
  | cons a l ih =>
    simp only [List.map_cons, List.nodup_cons] at hnd
    have h2 := ih (openSub r a.2 ch h) hnd.2
    simp only [List.foldl_cons]
    have hn1 : (openSub r a.2 ch h).npubsubs = r.npubsubs + 1 := rfl
    have hconf : ∀ v, ((openSub r a.2 ch h).conns v).conf = (r.conns v).conf := by
      intro v
      by_cases hv : v = a.2
      · subst hv; simp [openSub]
      · simp [openSub, Function.update_noteq hv]
    have hself : (l.foldl (fun acc e => openSub acc e.2 ch h) (openSub r a.2 ch h)).conns a.2
        = { r.conns a.2 with pubsub := some r.npubsubs } := by
      rw [h2.untouched a.2 hnd.1]; simp [openSub]
    have hps : (l.foldl (fun acc e => openSub acc e.2 ch h) (openSub r a.2 ch h)).pubsubs
        r.npubsubs = { addr := (r.conns a.2).conf.Addr, channels := ch, closed := false } := by
      rw [h2.old r.npubsubs (by rw [hn1]; omega)]; simp [openSub]
    have hkeep : ∀ x ∈ r.loops, x ∈ (openSub r a.2 ch h).loops :=
      fun x hx => List.mem_append_left _ hx
    have hself2 : ({ pubsub := r.npubsubs, handler := h } : Loop) ∈ (openSub r a.2 ch h).loops :=
      List.mem_append_right _ (List.mem_singleton_self _)
    refine ⟨h2.dbs, h2.subMap, h2.channels, h2.fun_, h2.nconns, ?_, ?_, ?_, ?_, ?_, ?_, ?_,
      fun x hx => h2.keep x (hkeep x hx), fun p hp1 hp2 => ?_⟩
    rotate_right
    · by_cases hp : p = r.npubsubs
      · subst hp
        exact ⟨_, h2.keep _ hself2, rfl, rfl⟩
      · exact h2.spawned p (by rw [hn1]; omega) (by rw [hn1]; simp at hp2; omega)
    · rw [h2.npubsubs, hn1, List.length_cons]; omega
    · intro p hp
      rw [h2.old p (by rw [hn1]; omega)]
      have : p ≠ r.npubsubs := by omega
      simp [openSub, Function.update_noteq this]
    · intro v; rw [h2.conf v, hconf v]
    · intro v hv
      simp only [List.map_cons, List.mem_cons, not_or] at hv
      rw [h2.untouched v hv.2]
      simp [openSub, Function.update_noteq hv.1]
    · intro e he
      rcases List.mem_cons.1 he with rfl | he
      · exact ⟨r.npubsubs, le_refl _, by simp, by rw [hself], hps⟩
      · obtain ⟨p, hp1, hp2, hp3, hp4⟩ := h2.opened e he
        refine ⟨p, by rw [hn1] at hp1; omega, by rw [hn1] at hp2; simp; omega, hp3, ?_⟩
        rw [hp4, hconf]
    · intro p hp1 hp2
      by_cases hp : p = r.npubsubs
      · subst hp
        exact ⟨a, List.mem_cons_self _ _, by rw [hself]⟩
      · obtain ⟨e, he, hpe⟩ := h2.fresh p (by rw [hn1]; omega)
          (by rw [hn1]; simp at hp2; omega)
        exact ⟨e, List.mem_cons_of_mem _ he, hpe⟩
    · intro x hx
      rcases h2.loops x hx with hx | ⟨q1, q2, q3⟩
      · simp only [openSub, List.mem_append, List.mem_singleton] at hx
        rcases hx with hx | rfl
        · exact Or.inl hx
        · exact Or.inr ⟨le_refl _, by simp, rfl⟩
      · exact Or.inr ⟨by rw [hn1] at q1; omega, by rw [hn1] at q2; simp; omega, q3⟩

theorem Inv.entry_unique {r : RedisManager} (h : Inv r) (e1 e2 : String × Nat)
    (h1 : e1 ∈ r.subMap) (h2 : e2 ∈ r.subMap) (hk : e1.1 = e2.1) : e1 = e2 := by
  have hinj := List.inj_on_of_nodup_map h.keys
  exact hinj h1 h2 hk

theorem Inv.values_nodup {r : RedisManager} (h : Inv r) : (r.subMap.map Prod.snd).Nodup := by
  refine List.Nodup.map_on (fun e1 h1 e2 h2 hv => ?_) (List.Nodup.of_map _ h.keys)
  apply h.entry_unique e1 e2 h1 h2
  rw [← (h.addr e1 h1).2, ← (h.addr e2 h2).2, hv]

theorem Inv_empty : Inv RedisManager.empty := by
  constructor <;> simp [RedisManager.empty, GoMap.get]

theorem SubOrdered_spec (r : RedisManager) (f : Nat) (ch : List String)
    (o1 o2 : List (String × Nat)) (hinv : Inv r) (h1 : o1.Perm r.subMap)
    (h2 : o2.Perm r.subMap) : SubSpec r f ch (SubOrdered r f ch o1 o2) := by
  have hc := closeFold_spec o1 { r with channels := ch, fun_ := some f }
  have hnd : (o2.map Prod.snd).Nodup := ((h2.map Prod.snd).nodup_iff).2 hinv.values_nodup
  have ho := openFold_spec o2 ch (.captured f)
    (o1.foldl (fun acc e => closeOf acc e.2) { r with channels := ch, fun_ := some f }) hnd
  have hconns := hc.conns
  have hnp := hc.npubsubs
  simp only at hconns hnp
  unfold SubOrdered
  simp only
  refine ⟨ho.dbs.trans hc.dbs, ho.subMap.trans hc.subMap, ho.channels.trans hc.channels,
    ho.fun_.trans hc.fun_, ho.nconns.trans hc.nconns, fun v => ?_, ?_, fun p hp => ?_,
    fun e he => ?_, fun p hp1 hp2 => ?_, fun x hx => ?_,
    fun x hx => ho.keep x (by rw [hc.loops]; exact hx),
    fun p hp1 hp2 => ho.spawned p (by rw [hnp]; exact hp1)
      (by rw [ho.npubsubs] at hp2; exact hp2)⟩
  · rw [ho.conf v, hconns]
  · rw [ho.npubsubs, hnp]; omega
  · rw [ho.old p (by rw [hnp]; exact hp)]
    cases hcl : (r.pubsubs p).closed with
    | true => exact (hc.same p).2.2 hcl
    | false =>
      obtain ⟨e, he, hpe⟩ := hinv.liveOwned p hp hcl
      exact hc.closed e (h1.mem_iff.2 he) p hpe
  · obtain ⟨p, q1, q2, q3, q4⟩ := ho.opened e (h2.mem_iff.2 he)
    refine ⟨p, by rw [hnp] at q1; exact q1, by rw [ho.npubsubs]; exact q2, q3, ?_⟩
    rw [q4, hconns, (hinv.addr e he).2]
  · obtain ⟨e, he, hpe⟩ := ho.fresh p (by rw [hnp]; exact hp1)
      (by rw [ho.npubsubs] at hp2; exact hp2)
    exact ⟨e, h2.mem_iff.1 he, hpe⟩
  · rcases ho.loops x hx with hx | ⟨q1, q2, q3⟩
    · rw [hc.loops] at hx
      exact Or.inl ⟨hx, (hinv.loops x hx).1⟩
    · exact Or.inr ⟨by rw [hnp] at q1; exact q1, by rw [ho.npubsubs]; exact q2, q3⟩

theorem Inv_of_SubSpec (r r2 : RedisManager) (f : Nat) (ch : List String) (hinv : Inv r)
    (hs : SubSpec r f ch r2) : Inv r2 := by
  refine ⟨by rw [hs.subMap]; exact hinv.keys, fun e he => ?_, fun p hp hl => ?_,
    fun e he p hp => ?_, fun _ e he => ?_, fun id v hv => ?_, fun x hx => ?_,
    fun p hp => ?_⟩
  rotate_right
  · by_cases hlt : p < r.npubsubs
    · obtain ⟨x, hx, hxp⟩ := hinv.looped p hlt
      exact ⟨x, hs.keep x hx, hxp⟩
    · obtain ⟨x, hx, hxp, _⟩ := hs.spawned p (by omega) hp
      exact ⟨x, hx, hxp⟩
  · rw [hs.subMap] at he
    rw [hs.nconns, hs.conf]
    exact hinv.addr e he
  · by_cases hlt : p < r.npubsubs
    · rw [hs.oldClosed p hlt] at hl; cases hl
    · obtain ⟨e, he, hpe⟩ := hs.fresh p (by omega) hp
      exact ⟨e, by rw [hs.subMap]; exact he, hpe⟩
  · rw [hs.subMap] at he
    obtain ⟨p0, q1, q2, q3, q4⟩ := hs.opened e he
    rw [q3, Option.some.injEq] at hp
    subst hp
    rw [q4, hs.channels]
    exact ⟨q2, rfl, rfl, rfl⟩
  · rw [hs.subMap] at he
    obtain ⟨p0, q1, q2, q3, q4⟩ := hs.opened e he
    rw [q3]; simp
  · rw [hs.dbs] at hv
    obtain ⟨a1, w, a2⟩ := hinv.dbsAddr id v hv
    exact ⟨by rw [hs.nconns]; exact a1, w, by rw [hs.subMap, hs.conf]; exact a2⟩
  · rcases hs.loops x hx with ⟨_, hlt⟩ | ⟨q1, q2, q3⟩
    · refine ⟨by have := hs.npubsubs; omega, fun hl => ?_⟩
      rw [hs.oldClosed _ hlt] at hl; cases hl
    · refine ⟨q2, fun hl => ?_⟩
      simp [delivered, hl, q3, hs.fun_]

theorem Inv_Add_dbs (r : RedisManager) (id : Int) (conf : RedisConfig) (sm : GoMap String Nat)
    (cs : Nat → Redis) (hinv : Inv r) (hcs : (cs r.nconns).conf = conf)
    (hold : ∀ v, v < r.nconns → (cs v).conf = (r.conns v).conf)
    (hsm : ∀ e, e ∈ r.subMap → e ∈ sm) (hnew : ∃ w, (conf.Addr, w) ∈ sm) :
    ∀ id2 v, (r.dbs.set id r.nconns).get id2 = some v →
      v < r.nconns + 1 ∧ ∃ w, ((cs v).conf.Addr, w) ∈ sm := by
  intro id2 v hv
  by_cases hid : id = id2
  · subst hid
    rw [GoMap.get_set_self, Option.some.injEq] at hv
    subst hv
    exact ⟨by omega, by rw [hcs]; exact hnew⟩
  · rw [GoMap.get_set_other _ _ _ _ hid] at hv
    obtain ⟨a1, w, a2⟩ := hinv.dbsAddr id2 v hv
    exact ⟨by omega, w, by rw [hold v a1]; exact hsm _ a2⟩

theorem Inv_Add (r : RedisManager) (id : Int) (conf : RedisConfig) (hinv : Inv r) :
    Inv (Add r id conf) := by
  have hne : ∀ e ∈ r.subMap, e.2 ≠ r.nconns := fun e he => Nat.ne_of_lt (hinv.addr e he).1
  unfold Add
  cases hd : r.dbs.get id with
  | some v => exact hinv
  | none =>
    simp only
    cases hs : r.subMap.get conf.Addr with
    | some w =>
      simp only
      refine ⟨hinv.keys, fun e he => ?_, fun p hp hl => ?_, fun e he p hp => ?_,
        fun hch e he => ?_, ?_, fun x hx => hinv.loops x hx, fun p hp => hinv.looped p hp⟩
      · simp only [Function.update_noteq (hne e he)]
        exact ⟨Nat.lt_succ_of_lt (hinv.addr e he).1, (hinv.addr e he).2⟩
      · obtain ⟨e, he, hpe⟩ := hinv.liveOwned p hp hl
        exact ⟨e, he, by simp only [Function.update_noteq (hne e he)]; exact hpe⟩
      · simp only [Function.update_noteq (hne e he)] at hp
        exact hinv.owned e he p hp
      · simp only [Function.update_noteq (hne e he)]
        exact hinv.active hch e he
      · exact Inv_Add_dbs r id conf r.subMap _ hinv (by simp)
          (fun v hv => by simp [Function.update_noteq (Nat.ne_of_lt hv)]) (fun e he => he)
          ⟨w, GoMap.mem_of_get _ _ _ hs⟩
    | none =>
      have hset := GoMap.set_of_get_none r.subMap conf.Addr r.nconns hs
      have hkeys : ((r.subMap ++ [(conf.Addr, r.nconns)]).map Prod.fst).Nodup := by
        rw [List.map_append, List.nodup_append]
        refine ⟨hinv.keys, by simp, ?_⟩
        intro a ha1 ha2
        simp only [List.map_cons, List.map_nil, List.mem_singleton] at ha2
        subst ha2
        exact GoMap.not_mem_keys_of_get_none _ _ hs ha1
      simp only [hset]
      by_cases hch : r.channels.length > 0
      · simp only [hch, if_true, openSub, Function.update_same, Function.update_idem]
        refine ⟨hkeys, fun e he => ?_, fun p hp hl => ?_, fun e he p hp => ?_,
          fun _ e he => ?_, ?_, fun x hx => ?_, fun p hp => ?_⟩
        rotate_right
        · by_cases hpn : p = r.npubsubs
          · subst hpn
            exact ⟨_, List.mem_append_right _ (List.mem_singleton_self _), rfl⟩
          · have hp2 : p < r.npubsubs + 1 := hp
            obtain ⟨x, hx, hxp⟩ := hinv.looped p (by omega)
            exact ⟨x, List.mem_append_left _ hx, hxp⟩
        · rcases List.mem_append.1 he with he | he
          · simp only [Function.update_noteq (hne e he)]
            exact ⟨Nat.lt_succ_of_lt (hinv.addr e he).1, (hinv.addr e he).2⟩
          · simp only [List.mem_singleton] at he
            subst he
            simp
        · by_cases hpn : p = r.npubsubs
          · subst hpn
            exact ⟨(conf.Addr, r.nconns), by simp, by simp⟩
          · simp only [Function.update_noteq hpn] at hl
            have hp2 : p < r.npubsubs + 1 := hp
            obtain ⟨e, he, hpe⟩ := hinv.liveOwned p (by omega) hl
            exact ⟨e, List.mem_append_left _ he,
              by simp only [Function.update_noteq (hne e he)]; exact hpe⟩
        · rcases List.mem_append.1 he with he | he
          · simp only [Function.update_noteq (hne e he)] at hp
            obtain ⟨a1, a2, a3, a4⟩ := hinv.owned e he p hp
            have hpn : p ≠ r.npubsubs := Nat.ne_of_lt a1
            simp only [Function.update_noteq hpn]
            exact ⟨by omega, a2, a3, a4⟩
          · simp only [List.mem_singleton] at he
            subst he
            simp only [Function.update_same, Option.some.injEq] at hp
            subst hp
            simp
        · rcases List.mem_append.1 he with he | he
          · simp only [Function.update_noteq (hne e he)]
            exact hinv.active (by intro h0; rw [h0] at hch; simp at hch) e he
          · simp only [List.mem_singleton] at he
            subst he
            simp
        · exact Inv_Add_dbs r id conf _ _ hinv (by simp)
            (fun v hv => by simp [Function.update_noteq (Nat.ne_of_lt hv)])
            (fun e he => List.mem_append_left _ he) ⟨r.nconns, by simp⟩
        · rcases List.mem_append.1 hx with hx | hx
          · obtain ⟨a1, a2⟩ := hinv.loops x hx
            have hpn : x.pubsub ≠ r.npubsubs := Nat.ne_of_lt a1
            refine ⟨Nat.lt_succ_of_lt a1, ?_⟩
            simp only [delivered, Function.update_noteq hpn]
            exact a2
          · simp only [List.mem_singleton] at hx
            subst hx
            simp [delivered]
      · simp only [hch, if_false]
        refine ⟨hkeys, fun e he => ?_, fun p hp hl => ?_, fun e he p hp => ?_,
          fun h0 e he => ?_, ?_, fun x hx => hinv.loops x hx, fun p hp => hinv.looped p hp⟩
        · rcases List.mem_append.1 he with he | he
          · simp only [Function.update_noteq (hne e he)]
            exact ⟨Nat.lt_succ_of_lt (hinv.addr e he).1, (hinv.addr e he).2⟩
          · simp only [List.mem_singleton] at he
            subst he
            simp
        · obtain ⟨e, he, hpe⟩ := hinv.liveOwned p hp hl
          exact ⟨e, List.mem_append_left _ he,
            by simp only [Function.update_noteq (hne e he)]; exact hpe⟩
        · rcases List.mem_append.1 he with he | he
          · simp only [Function.update_noteq (hne e he)] at hp
            exact hinv.owned e he p hp
          · simp only [List.mem_singleton] at he
            subst he
            simp at hp
        · exfalso
          apply hch
          exact List.length_pos.2 h0
        · exact Inv_Add_dbs r id conf _ _ hinv (by simp)
            (fun v hv => by simp [Function.update_noteq (Nat.ne_of_lt hv)])
            (fun e he => List.mem_append_left _ he) ⟨r.nconns, by simp⟩

theorem Inv_of_Reachable (r : RedisManager) (h : Reachable r) : Inv r := by
  induction h with
  | init conf => exact Inv_Add _ _ _ Inv_empty
  | add id conf _ ih => exact Inv_Add _ _ _ ih
  | sub f ch o1 o2 _ h1 h2 ih =>
    exact Inv_of_SubSpec _ _ f ch ih (SubOrdered_spec _ f ch o1 o2 ih h1 h2)

theorem Reachable_Sub (r : RedisManager) (f : Nat) (ch : List String) (h : Reachable r) :
    Reachable (Sub r f ch) :=
  Reachable.sub f ch r.subMap r.subMap h (List.Perm.refl _) (List.Perm.refl _)

theorem Inv.live_unique {r : RedisManager} (h : Inv r) (p q : Nat) (hp : live r p)
    (hq : live r q) (ha : (r.pubsubs p).addr = (r.pubsubs q).addr) : p = q := by
  obtain ⟨e1, he1, hp1⟩ := h.liveOwned p hp.1 hp.2
  obtain ⟨e2, he2, hp2⟩ := h.liveOwned q hq.1 hq.2
  have a1 := (h.owned e1 he1 p hp1).2.2.1
  have a2 := (h.owned e2 he2 q hp2).2.2.1
  have : e1 = e2 := h.entry_unique e1 e2 he1 he2 (by rw [← a1, ← a2, ha])
  subst this
  rw [hp1, Option.some.injEq] at hp2
  exact hp2

theorem Inv.live_of_entry {r : RedisManager} (h : Inv r) (hch : r.channels ≠ [])
    (e : String × Nat) (he : e ∈ r.subMap) :
    ∃ p, live r p ∧ (r.pubsubs p).addr = e.1 ∧ (r.pubsubs p).channels = r.channels := by
  cases hp : (r.conns e.2).pubsub with
  | none => exact absurd hp (h.active hch e he)
  | some p =>
    obtain ⟨a1, a2, a3, a4⟩ := h.owned e he p hp
    exact ⟨p, ⟨a1, a2⟩, a3, a4⟩

theorem Inv.delivered_cases {r : RedisManager} (h : Inv r) (x : Loop) (hx : x ∈ r.loops) :
    delivered r x = none ∨ delivered r x = r.fun_ := by
  cases hc : (r.pubsubs x.pubsub).closed with
  | true => left; simp [delivered, hc]
  | false => right; exact (h.loops x hx).2 hc

theorem Add_fun (r : RedisManager) (id : Int) (conf : RedisConfig) :
    (Add r id conf).fun_ = r.fun_ := by
  unfold Add
  cases r.dbs.get id with
  | some v => rfl
  | none =>
    simp only
    cases r.subMap.get conf.Addr with
    | some w => rfl
    | none =>
      simp only
      split <;> rfl

theorem Inv_Adds (adds : List (Int × RedisConfig)) (r : RedisManager) (h : Inv r) :
    Inv (adds.foldl (fun acc a => Add acc a.1 a.2) r) ∧
    (adds.foldl (fun acc a => Add acc a.1 a.2) r).fun_ = r.fun_ := by
  induction adds generalizing r with
  | nil => exact ⟨h, rfl⟩
  | cons a adds ih =>
    simp only [List.foldl_cons]
    exact ⟨(ih _ (Inv_Add r a.1 a.2 h)).1, (ih _ (Inv_Add r a.1 a.2 h)).2.trans (Add_fun _ _ _)⟩

/-- C8: for every manager state, every shard id `X` present in `dbs` and every
configuration, `Add(X, conf)` leaves the state as it is: `dbs[X]` is the connection it was,
no connection is created, `subMap` gains no entry, no subscription is opened and no
receive loop is spawned. -/
theorem Add_existing_noop (r : RedisManager) (X : Int) (conf : RedisConfig) (v : Nat)
    (h : r.dbs.get X = some v) :
    Add r X conf = r ∧ (Add r X conf).dbs.get X = some v ∧
    (Add r X conf).conns v = r.conns v ∧ (Add r X conf).nconns = r.nconns ∧
    (Add r X conf).subMap = r.subMap ∧ (Add r X conf).npubsubs = r.npubsubs ∧
    (Add r X conf).loops = r.loops := by
  have h0 : Add r X conf = r := by
    unfold Add
    rw [h]
  rw [h0]
  exact ⟨rfl, h, rfl, rfl, rfl, rfl, rfl⟩

theorem Add_existing_noop_witness :
    (Add (NewRedisManager confA) 0 confB).dbs.get 0 = some 0 ∧
    ((Add (NewRedisManager confA) 0 confB).conns 0).conf = confA ∧
    (Add (NewRedisManager confA) 0 confB).nconns = 1 := by
  have h := Add_existing_noop (NewRedisManager confA) 0 confB 0 (by decide)
  refine ⟨h.2.1, ?_, ?_⟩
  · rw [h.1]; decide
  · rw [h.1]; decide

/-- C9: in every state reachable from `NewRedisManager` by sequential `Add` and `Sub`
calls, two live subscription handles never belong to the same address, however many shard
ids share it; and while a non-empty channel set is established every registered address
has exactly one live handle, whether its shards were added before or after the `Sub`
call. -/
theorem one_live_handle_per_address (r : RedisManager) (h : Reachable r) :
    (∀ p q, live r p → live r q → (r.pubsubs p).addr = (r.pubsubs q).addr → p = q) ∧
    (r.channels ≠ [] → ∀ a, registered r a → ∃! p, live r p ∧ (r.pubsubs p).addr = a) := by
  have hinv := Inv_of_Reachable r h
  refine ⟨fun p q hp hq ha => hinv.live_unique p q hp hq ha, fun hch a hreg => ?_⟩
  obtain ⟨id, v, hv, hva⟩ := hreg
  obtain ⟨_, w, hw⟩ := hinv.dbsAddr id v hv
  rw [hva] at hw
  obtain ⟨p, hp1, hp2, _⟩ := hinv.live_of_entry hch (a, w) hw
  exact ⟨p, ⟨hp1, hp2⟩, fun q hq => hinv.live_unique q p hq.1 hp1 (by rw [hq.2, hp2])⟩

theorem one_live_handle_per_address_witness :
    ∃! p, live (Add (Add (Sub (Add (NewRedisManager confA) 1 confA) 7 ["news"]) 2 confB) 3 confB) p ∧
      ((Add (Add (Sub (Add (NewRedisManager confA) 1 confA) 7 ["news"]) 2 confB) 3 confB).pubsubs
        p).addr = "10.0.0.2:6379" :=
  (one_live_handle_per_address
    (Add (Add (Sub (Add (NewRedisManager confA) 1 confA) 7 ["news"]) 2 confB) 3 confB)
    (Reachable.add 3 confB (Reachable.add 2 confB (Reachable_Sub _ 7 ["news"]
      (Reachable.add 1 confA (Reachable.init confA)))))).2 (by decide) "10.0.0.2:6379"
    ⟨3, 3, by decide, by decide⟩

/-- C10: from every reachable manager state, `Sub(h1, "a")` followed by `Sub(h2, "b")`,
the loops visiting `subMap` in any order, leaves no live handle bound to channel "a"
(every handle opened by the first call is closed) and, for each address in `subMap`,
exactly one live handle, bound to channel "b", on which the second call has spawned a
receive loop that captured `h2`; `channels` is `["b"]` and `fun` is `h2`; and afterwards,
also after any further `Add` calls, `fun` is still `h2`, every live handle has a receive
loop, every receive loop on a live handle, those started by `Add` included, delivers an
arriving message to `h2`, a loop on a closed handle delivers to nobody, and so no message
reaches a different `h1`. -/
theorem Sub_twice_rebinds (r : RedisManager) (hr : Reachable r) (h1 h2 : Nat)
    (o1 o2 o3 o4 : List (String × Nat)) (p1 : o1.Perm r.subMap) (p2 : o2.Perm r.subMap)
    (p3 : o3.Perm r.subMap) (p4 : o4.Perm r.subMap) :
    (∀ p, live (SubOrdered (SubOrdered r h1 ["a"] o1 o2) h2 ["b"] o3 o4) p →
      "a" ∉ ((SubOrdered (SubOrdered r h1 ["a"] o1 o2) h2 ["b"] o3 o4).pubsubs p).channels) ∧
    (∀ p, r.npubsubs ≤ p → p < (SubOrdered r h1 ["a"] o1 o2).npubsubs →
      ((SubOrdered (SubOrdered r h1 ["a"] o1 o2) h2 ["b"] o3 o4).pubsubs p).closed = true) ∧
    (∀ e ∈ (SubOrdered (SubOrdered r h1 ["a"] o1 o2) h2 ["b"] o3 o4).subMap,
      ∃ p, (live (SubOrdered (SubOrdered r h1 ["a"] o1 o2) h2 ["b"] o3 o4) p ∧
          ((SubOrdered (SubOrdered r h1 ["a"] o1 o2) h2 ["b"] o3 o4).pubsubs p).addr = e.1 ∧
          ((SubOrdered (SubOrdered r h1 ["a"] o1 o2) h2 ["b"] o3 o4).pubsubs p).channels
            = ["b"] ∧
          ∃ x ∈ (SubOrdered (SubOrdered r h1 ["a"] o1 o2) h2 ["b"] o3 o4).loops,
            x.pubsub = p ∧ x.handler = .captured h2) ∧
        ∀ q, live (SubOrdered (SubOrdered r h1 ["a"] o1 o2) h2 ["b"] o3 o4) q →
          ((SubOrdered (SubOrdered r h1 ["a"] o1 o2) h2 ["b"] o3 o4).pubsubs q).addr = e.1 →
          q = p) ∧
    (SubOrdered (SubOrdered r h1 ["a"] o1 o2) h2 ["b"] o3 o4).channels = ["b"] ∧
    (SubOrdered (SubOrdered r h1 ["a"] o1 o2) h2 ["b"] o3 o4).fun_ = some h2 ∧
    (∀ (adds : List (Int × RedisConfig)),
      (addAll (SubOrdered (SubOrdered r h1 ["a"] o1 o2) h2 ["b"] o3 o4) adds).fun_
        = some h2 ∧
      (∀ p, live (addAll (SubOrdered (SubOrdered r h1 ["a"] o1 o2) h2 ["b"] o3 o4) adds) p →
        ∃ x ∈ (addAll (SubOrdered (SubOrdered r h1 ["a"] o1 o2) h2 ["b"] o3 o4) adds).loops,
          x.pubsub = p ∧
          delivered (addAll (SubOrdered (SubOrdered r h1 ["a"] o1 o2) h2 ["b"] o3 o4) adds) x
            = some h2) ∧
      (∀ x ∈ (addAll (SubOrdered (SubOrdered r h1 ["a"] o1 o2) h2 ["b"] o3 o4) adds).loops,
        (live (addAll (SubOrdered (SubOrdered r h1 ["a"] o1 o2) h2 ["b"] o3 o4) adds)
            x.pubsub →
          delivered (addAll (SubOrdered (SubOrdered r h1 ["a"] o1 o2) h2 ["b"] o3 o4) adds) x
            = some h2) ∧
        (¬ live (addAll (SubOrdered (SubOrdered r h1 ["a"] o1 o2) h2 ["b"] o3 o4) adds)
            x.pubsub →
          delivered (addAll (SubOrdered (SubOrdered r h1 ["a"] o1 o2) h2 ["b"] o3 o4) adds) x
            = none) ∧
        (h1 ≠ h2 →
          delivered (addAll (SubOrdered (SubOrdered r h1 ["a"] o1 o2) h2 ["b"] o3 o4) adds) x
            ≠ some h1))) := by
  have hinv := Inv_of_Reachable r hr
  have s1 := SubOrdered_spec r h1 ["a"] o1 o2 hinv p1 p2
  have hinv1 := Inv_of_SubSpec _ _ _ _ hinv s1
  have s2 := SubOrdered_spec (SubOrdered r h1 ["a"] o1 o2) h2 ["b"] o3 o4 hinv1
    (by rw [s1.subMap]; exact p3) (by rw [s1.subMap]; exact p4)
  have hinv2 := Inv_of_SubSpec _ _ _ _ hinv1 s2
  generalize SubOrdered r h1 ["a"] o1 o2 = r1 at s1 hinv1 s2 hinv2 ⊢
  generalize SubOrdered r1 h2 ["b"] o3 o4 = r2 at s2 hinv2 ⊢
  have hch : r2.channels ≠ [] := by rw [s2.channels]; simp
  have hlive : ∀ p, live r2 p → (r2.pubsubs p).channels = ["b"] := by
    intro p hp
    obtain ⟨e, he, hpe⟩ := hinv2.liveOwned p hp.1 hp.2
    rw [(hinv2.owned e he p hpe).2.2.2, s2.channels]
  have hnew : ∀ p, live r2 p → r1.npubsubs ≤ p := by
    intro p hp
    by_contra hlt
    have hc := s2.oldClosed p (by omega)
    rw [hp.2] at hc
    cases hc
  refine ⟨fun p hp => by rw [hlive p hp]; decide, fun p _ hp => s2.oldClosed p hp,
    fun e he => ?_, s2.channels, s2.fun_, fun adds => ?_⟩
  · obtain ⟨p, a1, a2, _⟩ := hinv2.live_of_entry hch e he
    obtain ⟨x, hx, hxp, hxh⟩ := s2.spawned p (hnew p a1) a1.1
    exact ⟨p, ⟨a1, a2, hlive p a1, x, hx, hxp, hxh⟩,
      fun q hq hqa => hinv2.live_unique q p hq a1 (by rw [hqa, a2])⟩
  · obtain ⟨i1, i2⟩ := Inv_Adds adds r2 hinv2
    rw [s2.fun_] at i2
    unfold addAll
    generalize adds.foldl (fun acc a => Add acc a.1 a.2) r2 = r3 at i1 i2 ⊢
    have hon : ∀ x ∈ r3.loops, live r3 x.pubsub → delivered r3 x = some h2 := by
      intro x hx hl
      rw [(i1.loops x hx).2 hl.2, i2]
    have hoff : ∀ x ∈ r3.loops, ¬ live r3 x.pubsub → delivered r3 x = none := by
      intro x hx hl
      have hc : (r3.pubsubs x.pubsub).closed = true := by
        cases hcl : (r3.pubsubs x.pubsub).closed with
        | true => rfl
        | false => exact absurd ⟨(i1.loops x hx).1, hcl⟩ hl
      simp [delivered, hc]
    refine ⟨i2, fun p hp => ?_, fun x hx => ⟨hon x hx, hoff x hx, fun hne => ?_⟩⟩
    · obtain ⟨x, hx, hxp⟩ := i1.looped p hp.1
      exact ⟨x, hx, hxp, hon x hx (by rw [hxp]; exact hp)⟩
    · by_cases hl : live r3 x.pubsub
      · rw [hon x hx hl]
        simp only [ne_eq, Option.some.injEq]
        exact fun h => hne h.symm
      · rw [hoff x hx hl]
        simp

theorem Sub_twice_rebinds_witness :
    delivered (Add (SubOrdered (SubOrdered (Add (NewRedisManager confA) 1 confB) 1 ["a"]
        [("10.0.0.1:6379", 0), ("10.0.0.2:6379", 1)]
        [("10.0.0.2:6379", 1), ("10.0.0.1:6379", 0)]) 2 ["b"]
        [("10.0.0.2:6379", 1), ("10.0.0.1:6379", 0)]
        [("10.0.0.1:6379", 0), ("10.0.0.2:6379", 1)]) 5 confC)
      { pubsub := 4, handler := .managerFun } = some 2 ∧
    delivered (Add (SubOrdered (SubOrdered (Add (NewRedisManager confA) 1 confB) 1 ["a"]
        [("10.0.0.1:6379", 0), ("10.0.0.2:6379", 1)]
        [("10.0.0.2:6379", 1), ("10.0.0.1:6379", 0)]) 2 ["b"]
        [("10.0.0.2:6379", 1), ("10.0.0.1:6379", 0)]
        [("10.0.0.1:6379", 0), ("10.0.0.2:6379", 1)]) 5 confC)
      { pubsub := 0, handler := .captured 1 } = none := by
  have h := (Sub_twice_rebinds (Add (NewRedisManager confA) 1 confB)
    (Reachable.add 1 confB (Reachable.init confA)) 1 2
    [("10.0.0.1:6379", 0), ("10.0.0.2:6379", 1)] [("10.0.0.2:6379", 1), ("10.0.0.1:6379", 0)]
    [("10.0.0.2:6379", 1), ("10.0.0.1:6379", 0)] [("10.0.0.1:6379", 0), ("10.0.0.2:6379", 1)]
    (List.Perm.refl _) (List.Perm.swap _ _ _) (List.Perm.swap _ _ _)
    (List.Perm.refl _)).2.2.2.2.2 [(5, confC)]
  exact ⟨(h.2.2 { pubsub := 4, handler := .managerFun } (by decide)).1 (by decide),
    (h.2.2 { pubsub := 0, handler := .captured 1 } (by decide)).2.1 (by decide)⟩

end Ngxnet
